import Mathlib

/-!
# Verification of the fillpdf library's text-processing core

A shallow embedding, over `List Char` and `String`, of the fillpdf Go
library: the FDF and XFDF field-definition encoders, the field-descriptor
parser (`GetFields`), the metadata-stripping rewrite (`createMetadataFile`),
the option-defaulting logic of `Fill`, and the destination-handling and
temporary-directory phases of `Fill`.

A `Form` is modelled as an association list of (name, value) pairs, each
already rendered to text (the Go code renders every value with
`fmt.Sprintf`).  The Go map's iteration order is unspecified; the list
order stands for one iteration order.
-/

set_option maxRecDepth 40000

namespace FillPdf

/-! ## FDF encoder (`createFdfFile` in fillpdf.go) -/

/-- The `fdfHeader` constant of fillpdf.go, byte for byte
(its second line is the literal ASCII text `%,,oe"`). -/
def fdfHeader : List Char :=
  ("%FDF-1.2\n%,,oe\"\n1 0 obj\n<<\n/FDF << /Fields [").toList

/-- The `fdfFooter` constant of fillpdf.go, byte for byte. -/
def fdfFooter : List Char :=
  ("]\n>>\n>>\nendobj\ntrailer\n<<\n/Root 1 0 R\n>>\n%%EOF").toList

/-- Modelled from the spec: the ISO 8859-1 (Latin-1) encoder
(`latin1Encoder.String`, from the third-party github.com/gdamore/encoding
package, whose source is not part of this repository).  Per the spec a
value outside the single-byte extended Latin repertoire must fail the
encode.  ISO 8859-1 maps code points 0..255 to the identical byte values,
so an encodable string comes back with the same characters (each standing
for one byte). -/
def encodeLatin1 : List Char → Except String (List Char)
  | [] => .ok []
  | c :: r =>
    if c.toNat < 256 then (encodeLatin1 r).map (fun t => c :: t)
    else .error "rune not supported by character set"

/-- One form entry line, the `fmt.Fprintf(w, "<< /T (%s) /V (%s)>>\n", ...)`
format of `createFdfFile` without the trailing newline.  `k` is written
verbatim, `v` is the already-Latin-1-encoded value.  No escaping of
parentheses or backslashes happens. -/
def fdfLine (k v : List Char) : List Char :=
  ("<< /T (").toList ++ k ++ (") /V (").toList ++ v ++ (")>>").toList

/-- The field-entry loop of `createFdfFile`: for each (key, value) pair the
value is Latin-1 encoded (a failure aborts the encode with the constant
message `createFdfFile` returns) and one line plus newline is emitted. -/
def fdfBody : List (List Char × List Char) → Except String (List Char)
  | [] => .ok []
  | (k, v) :: rest =>
    match encodeLatin1 v with
    | .error _ => .error "failed to convert string to Latin-1"
    | .ok ve => (fdfBody rest).map (fun b => fdfLine k ve ++ '\n' :: b)

/-- The whole FDF payload written by `createFdfFile`: `fmt.Fprintln` of the
header, the entry lines, `fmt.Fprintln` of the footer. -/
def createFdfData (form : List (List Char × List Char)) : Except String (List Char) :=
  match fdfBody form with
  | .error e => .error e
  | .ok b => .ok (fdfHeader ++ '\n' :: (b ++ fdfFooter ++ ['\n']))

/-! ### The spec-side FDF pair extractor

The definitions below follow the spec's words, not the Go code: §8 of the
spec asks that "encoding to FDF then extracting `/T (...) /V (...)` pairs
yields exactly the original name→text mapping".  A line yields a pair when
it has the shape `<< /T (` name `) /V (` value `)>>`, the name being cut at
the first occurrence of `) /V (`. -/

/-- Split a list at the first occurrence of the (non-empty) separator
`sep`: `splitFirstOn sep l = some (a, b)` when `l = a ++ sep ++ b` with the
first occurrence of `sep` starting right after `a`. -/
def splitFirstOn (sep : List Char) : List Char → Option (List Char × List Char)
  | [] => if sep = [] then some ([], []) else none
  | c :: r =>
    if sep <+: (c :: r) then some ([], (c :: r).drop sep.length)
    else (splitFirstOn sep r).map (fun p => (c :: p.1, p.2))

/-- Spec-side line parser: recognizes `<< /T (` name `) /V (` value `)>>`
and returns `(name, value)`; every other line yields nothing. -/
def parseFdfLine (l : List Char) : Option (List Char × List Char) :=
  if ("<< /T (").toList <+: l ∧ (")>>").toList <:+ l then
    splitFirstOn ((") /V (").toList) ((l.drop 7).take ((l.drop 7).length - 3))
  else none

/-- Spec-side extractor: the `/T (...) /V (...)` pairs of the payload's
lines, in order. -/
def extractFdfPairs (payload : List Char) : List (List Char × List Char) :=
  (payload.splitOn '\n').filterMap parseFdfLine

/-! ## XFDF encoder (`createXFDFFile` in xfdf.go)

`createXFDFFile` prints the XML prolog line and then the output of Go's
`encoding/xml.Marshal` on the `XFDF` struct.  Its `XMLNS` field carries
the struct tag `xml:"xmldn,attr"`, so Marshal emits an attribute literally
named `xmldn`.  Marshal escapes attribute values and character data with
one escaping routine, modelled by `escapeXmlChar` below. -/

/-- Go `encoding/xml`'s escaping of one character, as done by
`xml.EscapeText` for both attribute values and character data. -/
def escapeXmlChar (c : Char) : List Char :=
  if c = '"' then ("&#34;").toList
  else if c = '\'' then ("&#39;").toList
  else if c = '&' then ("&amp;").toList
  else if c = '<' then ("&lt;").toList
  else if c = '>' then ("&gt;").toList
  else if c = '\t' then ("&#x9;").toList
  else if c = '\n' then ("&#xA;").toList
  else if c = '\r' then ("&#xD;").toList
  else [c]

/-- Go `encoding/xml`'s escaping of a string. -/
def escapeXml (s : List Char) : List Char :=
  (s.map escapeXmlChar).flatten

/-- One `<field>` element as Marshal renders a `Field{Name, Value}` value:
a `name` attribute and a `value` child element. -/
def xfdfFieldElem (k v : List Char) : List Char :=
  ("<field name=\"").toList ++ escapeXml k ++ ("\"><value>").toList
    ++ escapeXml v ++ ("</value></field>").toList

/-- The whole file content written by `createXFDFFile`: the `xmlHeader`
prolog line, then the marshalled `xfdf` element (with the `xmldn` attribute
produced by the `xml:"xmldn,attr"` struct tag, the `xml:space="preserve"`
attribute, and one `fields` element holding the field elements in
iteration order), then a newline from `fmt.Fprintln`. -/
def createXFDFData (form : List (List Char × List Char)) : List Char :=
  ("<?xml version=\"1.0\" encoding=\"UTF-8\"?>").toList ++ '\n' ::
    (("<xfdf xmldn=\"http://ns.adobe.com/xfdf/\" xml:space=\"preserve\"><fields>").toList
      ++ (form.map (fun p => xfdfFieldElem p.1 p.2)).flatten
      ++ ("</fields></xfdf>").toList ++ ['\n'])

/-! ### Spec-side XML entity resolution

The spec asks that an XFDF value "round-trips the value unchanged through
XML parsing".  `unescapeXml` models an XML parser's resolution of the
entity and character references that `escapeXmlChar` can produce. -/

/-- Resolve the XML entity/character references `&amp;` `&lt;` `&gt;`
`&#34;` `&#39;` `&#x9;` `&#xA;` `&#xD;` (an ampersand starting no such
reference, and every other character, is copied through). -/
def unescapeXml : List Char → List Char
  | [] => []
  | c :: r =>
    if c = '&' then
      match hr : r with
      | a :: b :: e :: r3 =>
        if a = 'l' ∧ b = 't' ∧ e = ';' then '<' :: unescapeXml r3
        else if a = 'g' ∧ b = 't' ∧ e = ';' then '>' :: unescapeXml r3
        else
          match hr3 : r3 with
          | f :: r4 =>
            if a = 'a' ∧ b = 'm' ∧ e = 'p' ∧ f = ';' then '&' :: unescapeXml r4
            else if a = '#' ∧ b = '3' ∧ e = '4' ∧ f = ';' then '"' :: unescapeXml r4
            else if a = '#' ∧ b = '3' ∧ e = '9' ∧ f = ';' then '\'' :: unescapeXml r4
            else if a = '#' ∧ b = 'x' ∧ e = '9' ∧ f = ';' then '\t' :: unescapeXml r4
            else if a = '#' ∧ b = 'x' ∧ e = 'A' ∧ f = ';' then '\n' :: unescapeXml r4
            else if a = '#' ∧ b = 'x' ∧ e = 'D' ∧ f = ';' then '\r' :: unescapeXml r4
            else c :: unescapeXml r
          | [] => c :: unescapeXml r
      | _ => c :: unescapeXml r
    else c :: unescapeXml r
termination_by l => l.length
decreasing_by all_goals (subst_vars <;> simp <;> omega)

/-! ## Options and the definition-payload selection of `Fill` (fillpdf.go)

The `Fill` variant carrying the `UseXFDF` option (the one with
`defaultOptions` returning `{Overwrite: true, Flatten: true, UseXFDF:
true}`).  Its variadic `options ...Options` parameter is modelled as a
list. -/

/-- The `Options` struct of fillpdf.go (the `UseXFDF` variant). -/
structure Options where
  Overwrite : Bool
  Flatten : Bool
  UseXFDF : Bool
deriving DecidableEq

/-- `defaultOptions` of fillpdf.go. -/
def defaultOptions : Options :=
  { Overwrite := true, Flatten := true, UseXFDF := true }

/-- The option-defaulting prologue of `Fill`:
`opts := defaultOptions(); if len(options) > 0 { opts = options[0] }`. -/
def chooseOptions : List Options → Options
  | [] => defaultOptions
  | o :: _ => o

/-- The name of the definition file `Fill` writes into the scratch
directory. -/
def definitionFileName (opts : Options) : String :=
  if opts.UseXFDF then "data.xfdf" else "data.fdf"

/-- The field-definition payload `Fill` writes: `createXFDFFile` when
`opts.UseXFDF`, otherwise `createFdfFile`. -/
def fillDefinitionPayload (form : List (List Char × List Char))
    (options : List Options) : Except String (List Char) :=
  let opts := chooseOptions options
  if opts.UseXFDF then .ok (createXFDFData form) else createFdfData form

/-! ## Field-descriptor parser (`GetFields`)

The parsing core of `GetFields`: pdftk's `dump_data_fields` output is
split on `"---\n"` into blocks, a block of at most two lines is skipped,
and the lines of each kept block are folded over a zero `Field` record.
Go's `strings.Split` splits on every occurrence of the separator, leftmost
and non-overlapping; the two multi-character separators the code uses,
`": "` and `"---\n"`, are modelled by the structural splitters `splitKV`
and `splitBlocks`, and the `"\n"` split by `List.splitOn '\n'`. -/

/-- `strings.Split(line, ": ")`: split on every occurrence of `": "`,
leftmost, non-overlapping. -/
def splitKV : List Char → List (List Char)
  | ':' :: ' ' :: r => [] :: splitKV r
  | c :: r => (splitKV r).modifyHead (fun h => c :: h)
  | [] => [[]]

/-- `strings.Split(output, "---\n")`: split on every occurrence of
`"---\n"`, leftmost, non-overlapping. -/
def splitBlocks : List Char → List (List Char)
  | '-' :: '-' :: '-' :: '\n' :: r => [] :: splitBlocks r
  | c :: r => (splitBlocks r).modifyHead (fun h => c :: h)
  | [] => [[]]

/-- The `Field` record of `GetFields` (Go: `Type`, `Name`, `AltName`,
`Flags`; `Type` is not a legal Lean field name, hence lower case). -/
structure Field where
  type : List Char
  name : List Char
  altName : List Char
  flags : List Char
deriving DecidableEq

/-- The zero value `Field{}`. -/
def emptyField : Field :=
  { type := [], name := [], altName := [], flags := [] }

/-- One line of a block: `props := strings.Split(line, ": ")`, lines whose
split has a length other than two are skipped, then the `switch` on the
key (`strings.ToLower` on the ASCII key values pdftk emits is the
character-wise lower-casing). -/
def processFieldLine (field : Field) (line : List Char) : Field :=
  match splitKV line with
  | [k, v] =>
    if k = ("FieldType").toList then { field with type := v.map Char.toLower }
    else if k = ("FieldName").toList then { field with name := v }
    else if k = ("FieldNameAlt").toList then { field with altName := v }
    else if k = ("FieldFlags").toList then { field with flags := v }
    else field
  | _ => field

/-- One block: split on `"\n"`, skip blocks with `len(lines) <= 2`,
otherwise fold the lines over `Field{}`. -/
def processFieldBlock (f : List Char) : Option Field :=
  if (f.splitOn '\n').length ≤ 2 then none
  else some ((f.splitOn '\n').foldl processFieldLine emptyField)

/-- The parsing core of `GetFields` on the dump text. -/
def parseFieldsOutput (output : List Char) : List Field :=
  (splitBlocks output).filterMap processFieldBlock

/-! ## Metadata stripping (`createMetadataFile`)

The rewrite `createMetadataFile` applies to the `pdftk dump_data` output:
split on `"\n"`, replace every line with prefix `InfoValue:` by exactly
`InfoValue:`, join with `"\n"`.  Modelled over `List Char` (the separator
is the single character `'\n'`). -/

/-- The `InfoValue:` prefix. -/
def infoValuePrefix : List Char := ("InfoValue:").toList

/-- The per-line rewrite:
`if strings.HasPrefix(lines[i], "InfoValue:") { lines[i] = "InfoValue:" }`. -/
def stripInfoValue (l : List Char) : List Char :=
  if infoValuePrefix <+: l then infoValuePrefix else l

/-- The whole rewrite `createMetadataFile` applies to the dump text
(`strings.Split` on `"\n"`, the loop, `strings.Join` with `"\n"`). -/
def createMetadataData (dump : List Char) : List Char :=
  List.intercalate ['\n'] ((dump.splitOn '\n').map stripInfoValue)

/-! ## Destination handling of `Fill`

The tail of `Fill` after the pdftk run: check whether the destination
exists; if it does and `opts.Overwrite` is unset, return the
destination-exists error; if it does and `Overwrite` is set, `os.Remove`
the destination; finally `copyFile` the scratch output file onto the
destination.  The file system is an association list from paths to byte
contents; the model returns the result, the final file system, and the
ordered trace of mutating operations. -/

/-- A file-system operation recorded in the trace. -/
inductive FsOp
  | remove (p : String)
  | copy (src dst : String)
deriving DecidableEq

/-- `os.Remove`: drop the path's entry. -/
def removeFile (fs : List (String × List Char)) (p : String) :
    List (String × List Char) :=
  fs.filter (fun e => e.1 ≠ p)

/-- `copyFile src dst`: `os.Create` the destination and copy the source
bytes into it (the destination's previous contents are replaced). -/
def setFile (fs : List (String × List Char)) (p : String) (b : List Char) :
    List (String × List Char) :=
  (p, b) :: removeFile fs p

/-- The copy step at the end of `Fill` (reading the source can fail). -/
def fillCopyStep (fs : List (String × List Char)) (outputFile destFile : String)
    (ops : List FsOp) :
    Except String Unit × List (String × List Char) × List FsOp :=
  match fs.lookup outputFile with
  | none => (.error "failed to copy created output PDF to final destination", fs, ops)
  | some b => (.ok (), setFile fs destFile b, ops ++ [FsOp.copy outputFile destFile])

/-- The destination-handling tail of `Fill` (the `exists` stat itself is
assumed not to fail; on the Go error paths no file-system mutation has
been performed, which the unchanged returned file system reflects). -/
def fillDest (fs : List (String × List Char)) (outputFile destFile : String)
    (overwrite : Bool) :
    Except String Unit × List (String × List Char) × List FsOp :=
  match fs.lookup destFile with
  | some _ =>
    if !overwrite then (.error "destination PDF file already exists", fs, [])
    else fillCopyStep (removeFile fs destFile) outputFile destFile [FsOp.remove destFile]
  | none => fillCopyStep fs outputFile destFile []

/-! ## Scratch-directory lifetime of `Fill` (the `RemoveMetadata` variant)

The `Fill` variant with the `RemoveMetadata` option creates the temporary
directory, then — when `opts.RemoveMetadata` is set — calls
`createMetadataFile` and returns on its failure, and only after that
registers the `defer os.RemoveAll(tmpDir)`.  Every later return (success
or error, including a failing final copy) runs the deferred removal.  The
model walks the exit paths in source order, with one flag per fallible
step, and reports whether the scratch directory was created and whether it
was removed before the return. -/

/-- The `Options` struct of the `RemoveMetadata` variant of fillpdf.go. -/
structure OptionsRM where
  Overwrite : Bool
  Flatten : Bool
  RemoveMetadata : Bool
deriving DecidableEq

/-- The outcome of each fallible step of the `RemoveMetadata`-variant
`Fill`, in source order (`true` = the step succeeds / the condition
holds). -/
structure FillSteps where
  absFormOk : Bool
  absDestOk : Bool
  statFormOk : Bool
  formExists : Bool
  pdftkInstalled : Bool
  tmpDirOk : Bool
  metadataOk : Bool
  fdfOk : Bool
  pdftkRunOk : Bool
  pdftkUpdateOk : Bool
  statDestOk : Bool
  destExists : Bool
  removeDestOk : Bool
  copyOk : Bool
  opts : OptionsRM
deriving DecidableEq

/-- Which return path the `RemoveMetadata`-variant `Fill` takes, reported
as (scratch directory was created, scratch directory was removed before
the return).  The `defer os.RemoveAll(tmpDir)` is registered after the
`createMetadataFile` call, so the return on that call's failure happens
with no removal registered; every return from later steps runs the
deferred removal. -/
def fillScratch (s : FillSteps) : Bool × Bool :=
  if !s.absFormOk then (false, false)
  else if !s.absDestOk then (false, false)
  else if !s.statFormOk then (false, false)
  else if !s.formExists then (false, false)
  else if !s.pdftkInstalled then (false, false)
  else if !s.tmpDirOk then (false, false)
  else if s.opts.RemoveMetadata && !s.metadataOk then (true, false)
  else if !s.fdfOk then (true, true)
  else if !s.pdftkRunOk then (true, true)
  else if s.opts.RemoveMetadata && !s.pdftkUpdateOk then (true, true)
  else if !s.statDestOk then (true, true)
  else if s.destExists && !s.opts.Overwrite then (true, true)
  else if s.destExists && !s.removeDestOk then (true, true)
  else if !s.copyOk then (true, true)
  else (true, true)

/-! ## Theorems -/

/-- C1.  The claim says the default options select the FDF encoder; the
code's `defaultOptions` sets `UseXFDF: true`, so a `Fill` call with no
options argument writes the XFDF payload, which differs from the FDF
payload.  Counterexample at the one-field form `{"a": "b"}`. -/
theorem fill_default_not_fdf_cex :
    fillDefinitionPayload [(['a'], ['b'])] [] ≠ createFdfData [(['a'], ['b'])] ∧
    fillDefinitionPayload [(['a'], ['b'])] [] = .ok (createXFDFData [(['a'], ['b'])]) := by
  constructor
  · intro h
    have h2 := congrArg (fun e => e.toOption.getD []) h
    revert h2
    decide
  · rfl

/-- C1, amended.  The default `Options` used by `Fill` when the caller
passes no `Options` value select the XFDF encoder: for every call with no
options argument the field-definition payload written is the XFDF payload,
and `defaultOptions` has `UseXFDF = true`. -/
theorem fill_default_uses_xfdf (form : List (List Char × List Char)) :
    fillDefinitionPayload form [] = .ok (createXFDFData form) ∧
    defaultOptions.UseXFDF = true :=
  ⟨rfl, rfl⟩

/-- C2.  The root element written by the XFDF encoder does not carry a
namespace attribute: the struct tag `xml:"xmldn,attr"` (a slip for
`xmlns`) makes `xml.Marshal` emit an attribute literally named `xmldn`.
Evaluating the encoder at the form `{"a": "b"}` shows the exact output and
that no `xmlns` attribute occurs in it. -/
theorem xfdf_output_xmldn_attr :
    createXFDFData [(['a'], ['b'])] =
      ("<?xml version=\"1.0\" encoding=\"UTF-8\"?>\n<xfdf xmldn=\"http://ns.adobe.com/xfdf/\" xml:space=\"preserve\"><fields><field name=\"a\"><value>b</value></field></fields></xfdf>\n").toList ∧
    ¬ ("xmlns").toList <:+: createXFDFData [(['a'], ['b'])] := by
  constructor
  · rfl
  · decide

/-- C3.  The claim says a line whose value part contains `": "` still
yields the key and the remainder as value; the code splits on every
occurrence of `": "` and drops a line whose split has three or more parts.
The line `FieldName: a: b` leaves the descriptor untouched instead of
setting its name to `a: b`. -/
theorem field_line_two_separators_ignored_cex :
    processFieldLine emptyField (("FieldName: a: b").toList) = emptyField ∧
    processFieldLine emptyField (("FieldName: a: b").toList) ≠
      { emptyField with name := ("a: b").toList } := by
  constructor
  · rfl
  · decide

/-- C3, amended.  The field-descriptor parser splits each line on every
occurrence of `": "`; a line that does not split into exactly two parts —
in particular a line in which the separator occurs more than once — is
ignored without error. -/
theorem field_line_non_two_split_ignored (f : Field) (line : List Char)
    (h : (splitKV line).length ≠ 2) :
    processFieldLine f line = f := by
  rcases hs : splitKV line with _ | ⟨a, _ | ⟨b, _ | ⟨c, t⟩⟩⟩
  · simp [processFieldLine, hs]
  · simp [processFieldLine, hs]
  · exact absurd (by rw [hs]; rfl) h
  · simp [processFieldLine, hs]

/-- Witness for C3: the line `FieldName: a: b` splits into three parts and
is ignored. -/
theorem field_line_non_two_split_ignored_witness :
    (splitKV (("FieldName: a: b").toList)).length ≠ 2 ∧
    processFieldLine emptyField (("FieldName: a: b").toList) = emptyField :=
  ⟨by decide,
    field_line_non_two_split_ignored emptyField (("FieldName: a: b").toList) (by decide)⟩

/-- A line none of whose two-part splits carries a recognized key leaves
the descriptor record untouched. -/
theorem processFieldLine_eq_self (f : Field) (line : List Char)
    (h : ∀ k v, splitKV line = [k, v] →
      k ≠ ("FieldType").toList ∧ k ≠ ("FieldName").toList ∧
      k ≠ ("FieldNameAlt").toList ∧ k ≠ ("FieldFlags").toList) :
    processFieldLine f line = f := by
  rcases hs : splitKV line with _ | ⟨a, _ | ⟨b, _ | ⟨c, t⟩⟩⟩
  · simp [processFieldLine, hs]
  · simp [processFieldLine, hs]
  · obtain ⟨h1, h2, h3, h4⟩ := h a b hs
    simp only [processFieldLine, hs]
    rw [if_neg h1, if_neg h2, if_neg h3, if_neg h4]
  · simp [processFieldLine, hs]

/-- Folding lines without recognized keys over any descriptor record is
the identity. -/
theorem foldl_processFieldLine_eq_self (lines : List (List Char)) (f : Field)
    (h : ∀ l ∈ lines, ∀ k v, splitKV l = [k, v] →
      k ≠ ("FieldType").toList ∧ k ≠ ("FieldName").toList ∧
      k ≠ ("FieldNameAlt").toList ∧ k ≠ ("FieldFlags").toList) :
    lines.foldl processFieldLine f = f := by
  induction lines generalizing f with
  | nil => rfl
  | cons l rest ih =>
    rw [List.foldl_cons, processFieldLine_eq_self f l (h l (List.mem_cons_self l rest)),
      ih f (fun m hm => h m (List.mem_cons_of_mem l hm))]

/-- C9.  A field-dump block of three or more lines containing no line with
a recognized key still contributes a descriptor whose four fields are all
empty, rather than being skipped. -/
theorem unrecognized_block_yields_empty_descriptor (output block : List Char)
    (hmem : block ∈ splitBlocks output)
    (hlen : 3 ≤ (block.splitOn '\n').length)
    (hkeys : ∀ l ∈ block.splitOn '\n', ∀ k v, splitKV l = [k, v] →
      k ≠ ("FieldType").toList ∧ k ≠ ("FieldName").toList ∧
      k ≠ ("FieldNameAlt").toList ∧ k ≠ ("FieldFlags").toList) :
    processFieldBlock block = some emptyField ∧
    emptyField ∈ parseFieldsOutput output := by
  have hb : processFieldBlock block = some emptyField := by
    unfold processFieldBlock
    rw [if_neg (by omega)]
    exact congrArg some (foldl_processFieldLine_eq_self _ emptyField hkeys)
  exact ⟨hb, List.mem_filterMap.mpr ⟨block, hmem, hb⟩⟩

/-- Witness for C9: the three-line block `a`, `b`, `c` (the whole dump
text, there being no `---` separator) yields the all-empty descriptor. -/
theorem unrecognized_block_yields_empty_descriptor_witness :
    (("a\nb\nc").toList ∈ splitBlocks (("a\nb\nc").toList)) ∧
    3 ≤ ((("a\nb\nc").toList).splitOn '\n').length ∧
    (∀ l ∈ (("a\nb\nc").toList).splitOn '\n', ∀ k v, splitKV l = [k, v] →
      k ≠ ("FieldType").toList ∧ k ≠ ("FieldName").toList ∧
      k ≠ ("FieldNameAlt").toList ∧ k ≠ ("FieldFlags").toList) ∧
    (processFieldBlock (("a\nb\nc").toList) = some emptyField ∧
      emptyField ∈ parseFieldsOutput (("a\nb\nc").toList)) := by
  have hk : ∀ l ∈ (("a\nb\nc").toList).splitOn '\n', ∀ k v, splitKV l = [k, v] →
      k ≠ ("FieldType").toList ∧ k ≠ ("FieldName").toList ∧
      k ≠ ("FieldNameAlt").toList ∧ k ≠ ("FieldFlags").toList := by
    have hsplit : ((("a\nb\nc").toList).splitOn '\n') = [['a'], ['b'], ['c']] := by decide
    rw [hsplit]
    intro l hl k v hkv
    simp only [List.mem_cons, List.not_mem_nil, or_false] at hl
    rcases hl with rfl | rfl | rfl <;> simp [splitKV] at hkv
  exact ⟨by decide, by decide, hk,
    unrecognized_block_yields_empty_descriptor _ _ (by decide) (by decide) hk⟩

/-- C7.  The `RemoveMetadata` variant of `Fill` registers the deferred
`os.RemoveAll(tmpDir)` only after the `createMetadataFile` call, so when
`RemoveMetadata` is set and that call fails, `Fill` returns with the
scratch directory created but not removed — against the claim (and §7 of
the spec) that it is removed on every exit path after creation.  On the
same run with a succeeding metadata step, or with `RemoveMetadata` unset,
the directory is removed even when the final copy fails. -/
theorem fill_scratch_leak_on_metadata_failure :
    fillScratch
      { absFormOk := true, absDestOk := true, statFormOk := true,
        formExists := true, pdftkInstalled := true, tmpDirOk := true,
        metadataOk := false, fdfOk := true, pdftkRunOk := true,
        pdftkUpdateOk := true, statDestOk := true, destExists := false,
        removeDestOk := true, copyOk := false,
        opts := { Overwrite := true, Flatten := true, RemoveMetadata := true } }
      = (true, false) ∧
    fillScratch
      { absFormOk := true, absDestOk := true, statFormOk := true,
        formExists := true, pdftkInstalled := true, tmpDirOk := true,
        metadataOk := false, fdfOk := true, pdftkRunOk := true,
        pdftkUpdateOk := true, statDestOk := true, destExists := false,
        removeDestOk := true, copyOk := false,
        opts := { Overwrite := true, Flatten := true, RemoveMetadata := false } }
      = (true, true) := by
  constructor
  · rfl
  · rfl

/-- No element of a piece produced by `List.splitOnP p` satisfies `p`. -/
theorem not_of_mem_splitOnP {α : Type} (p : α → Bool) (xs : List α) :
    ∀ l ∈ xs.splitOnP p, ∀ a ∈ l, ¬ p a := by
  induction xs with
  | nil =>
    intro l hl a ha
    rw [List.splitOnP_nil] at hl
    rcases List.mem_singleton.mp hl with rfl
    exact absurd ha (List.not_mem_nil a)
  | cons x xs ih =>
    intro l hl a ha
    rw [List.splitOnP_cons] at hl
    by_cases hx : p x
    · rw [if_pos hx] at hl
      rcases List.mem_cons.mp hl with rfl | hl
      · exact absurd ha (List.not_mem_nil a)
      · exact ih l hl a ha
    · rw [if_neg hx] at hl
      cases hsp : xs.splitOnP p with
      | nil => exact absurd hsp (List.splitOnP_ne_nil p xs)
      | cons h0 t0 =>
        rw [hsp, List.modifyHead_cons] at hl
        rcases List.mem_cons.mp hl with rfl | hl
        · rcases List.mem_cons.mp ha with rfl | ha
          · exact hx
          · exact ih h0 (hsp ▸ List.mem_cons_self h0 t0) a ha
        · exact ih l (hsp ▸ List.mem_cons_of_mem h0 hl) a ha

/-- The separator is not a member of any piece of `List.splitOn`. -/
theorem not_mem_of_mem_splitOn {α : Type} [DecidableEq α] (c : α) (xs : List α) :
    ∀ l ∈ xs.splitOn c, c ∉ l := by
  intro l hl hc
  have := not_of_mem_splitOnP (fun a => a == c) xs l hl c hc
  simp at this

/-- C10.  The metadata-stripping rewrite, line for line: splitting its
output on newlines gives back exactly the input's lines, in order, with
every line carrying the `InfoValue:` prefix replaced by exactly
`InfoValue:` and every other line unchanged. -/
theorem metadata_strip_line_map (dump : List Char) :
    (createMetadataData dump).splitOn '\n' =
      (dump.splitOn '\n').map
        (fun l => if ("InfoValue:").toList <+: l then ("InfoValue:").toList else l) := by
  have hpieces := not_mem_of_mem_splitOn '\n' dump
  have hmap : ∀ l ∈ (dump.splitOn '\n').map stripInfoValue, '\n' ∉ l := by
    intro l hl
    rcases List.mem_map.mp hl with ⟨l0, hl0, rfl⟩
    unfold stripInfoValue
    split
    · decide
    · exact hpieces l0 hl0
  have hne : (dump.splitOn '\n').map stripInfoValue ≠ [] := by
    intro h
    exact List.splitOnP_ne_nil _ dump (List.map_eq_nil_iff.mp h)
  rw [createMetadataData, List.splitOn_intercalate _ '\n' hmap hne]
  rfl

/-- C8.  When `Fill` is called with more than one `Options` value only the
first is used (the payload, and the chosen options, agree with the
one-element call), and with zero values `defaultOptions` applies. -/
theorem fill_options_first_only (form : List (List Char × List Char))
    (o : Options) (rest : List Options) :
    fillDefinitionPayload form (o :: rest) = fillDefinitionPayload form [o] ∧
    chooseOptions (o :: rest) = o ∧
    chooseOptions [] = defaultOptions :=
  ⟨rfl, rfl, rfl⟩

/-- `os.Remove` of one path leaves the lookup of any other path alone. -/
theorem lookup_removeFile (fs : List (String × List Char)) (p q : String)
    (h : q ≠ p) : (removeFile fs p).lookup q = fs.lookup q := by
  induction fs with
  | nil => rfl
  | cons e t ih =>
    obtain ⟨a, v⟩ := e
    by_cases hap : a = p
    · subst hap
      have hqa : (q == a) = false := beq_false_of_ne h
      simp [removeFile, List.filter_cons, List.lookup, hqa] at ih ⊢
      exact ih
    · by_cases hqa : q = a
      · subst hqa
        simp [removeFile, List.filter_cons, decide_eq_true_iff, hap, List.lookup]
      · have hqa2 : (q == a) = false := beq_false_of_ne hqa
        simp [removeFile, List.filter_cons, decide_eq_true_iff, hap, List.lookup, hqa2] at ih ⊢
        exact ih

/-- C6.  The destination-handling tail of `Fill`: when the destination
path exists and `Overwrite` is unset, `Fill` fails with the
destination-exists error, performs no file-system operation, and leaves
the file system — in particular the destination's bytes — unchanged; when
`Overwrite` is set, the trace is exactly the removal of the destination
followed by the copy of the scratch output into place, in that order. -/
theorem fill_dest_overwrite_policy (fs : List (String × List Char))
    (out dst : String) (b outB : List Char)
    (hne : out ≠ dst)
    (hdst : fs.lookup dst = some b)
    (hout : fs.lookup out = some outB) :
    fillDest fs out dst false = (.error "destination PDF file already exists", fs, []) ∧
    fillDest fs out dst true =
      (.ok (), setFile (removeFile fs dst) dst outB,
        [FsOp.remove dst, FsOp.copy out dst]) := by
  constructor
  · rw [fillDest, hdst]
    rfl
  · rw [fillDest, hdst]
    have hout2 : (removeFile fs dst).lookup out = some outB := by
      rw [lookup_removeFile fs dst out hne, hout]
    show fillCopyStep (removeFile fs dst) out dst [FsOp.remove dst] = _
    rw [fillCopyStep, hout2]
    rfl

/-- Witness for C6 at the file system holding destination bytes `x` under
`dst` and scratch output bytes `y` under `out`. -/
theorem fill_dest_overwrite_policy_witness :
    (("out" : String) ≠ "dst") ∧
    (([("dst", ['x']), ("out", ['y'])] : List (String × List Char)).lookup ("dst") = some ['x']) ∧
    (([("dst", ['x']), ("out", ['y'])] : List (String × List Char)).lookup ("out") = some ['y']) ∧
    (fillDest [("dst", ['x']), ("out", ['y'])] ("out") ("dst") false =
        (.error "destination PDF file already exists", [("dst", ['x']), ("out", ['y'])], []) ∧
      fillDest [("dst", ['x']), ("out", ['y'])] ("out") ("dst") true =
        (.ok (), setFile (removeFile [("dst", ['x']), ("out", ['y'])] ("dst")) ("dst") ['y'],
          [FsOp.remove ("dst"), FsOp.copy ("out") ("dst")])) :=
  ⟨by decide, by decide, by decide,
    fill_dest_overwrite_policy [("dst", ['x']), ("out", ['y'])] ("out") ("dst")
      ['x'] ['y'] (by decide) (by decide) (by decide)⟩

/-- A string of characters below code point 256 is encoded by the Latin-1
encoder unchanged. -/
theorem encodeLatin1_ok (v : List Char) (h : ∀ c ∈ v, c.toNat < 256) :
    encodeLatin1 v = .ok v := by
  induction v with
  | nil => rfl
  | cons c r ih =>
    rw [encodeLatin1, if_pos (h c (List.mem_cons_self c r)),
      ih (fun a ha => h a (List.mem_cons_of_mem c ha))]
    rfl

/-- A successful Latin-1 encode means every character was below code
point 256. -/
theorem encodeLatin1_ok_bound (v ve : List Char) (h : encodeLatin1 v = .ok ve) :
    ∀ c ∈ v, c.toNat < 256 := by
  induction v generalizing ve with
  | nil => intro c hc; exact absurd hc (List.not_mem_nil c)
  | cons c0 r ih =>
    intro c hc
    rw [encodeLatin1] at h
    by_cases hb : c0.toNat < 256
    · rw [if_pos hb] at h
      rcases List.mem_cons.mp hc with rfl | hc2
      · exact hb
      · cases her : encodeLatin1 r with
        | error e => rw [her] at h; exact absurd h (by simp [Except.map])
        | ok re => exact ih re her c hc2
    · rw [if_neg hb] at h
      exact absurd h (by simp)

/-- When some value of the form has a character outside Latin-1, the FDF
field loop fails with the constant message `createFdfFile` returns. -/
theorem fdfBody_error (form : List (List Char × List Char)) (k v : List Char)
    (c : Char) (hmem : (k, v) ∈ form) (hc : c ∈ v) (hlat : 256 ≤ c.toNat) :
    fdfBody form = .error "failed to convert string to Latin-1" := by
  induction form with
  | nil => exact absurd hmem (List.not_mem_nil (k, v))
  | cons e rest ih =>
    obtain ⟨k0, v0⟩ := e
    rw [fdfBody]
    cases henc : encodeLatin1 v0 with
    | error e0 => rfl
    | ok ve =>
      have hrest : (k, v) ∈ rest := by
        rcases List.mem_cons.mp hmem with heq | h2
        · obtain ⟨rfl, rfl⟩ := Prod.mk.injEq .. ▸ heq
          have := encodeLatin1_ok_bound v ve henc c hc
          omega
        · exact h2
      rw [ih hrest]
      rfl

/-- The `<value>` element of one field, with the value escaped as
`encoding/xml` does, occurs inside the XFDF payload of any form containing
that field. -/
theorem value_elem_infix_xfdf (form : List (List Char × List Char))
    (k v : List Char) (hmem : (k, v) ∈ form) :
    (("<value>").toList ++ escapeXml v ++ ("</value>").toList) <:+:
      createXFDFData form := by
  have h1 : (("<value>").toList ++ escapeXml v ++ ("</value>").toList) <:+:
      xfdfFieldElem k v := by
    refine ⟨("<field name=\"").toList ++ escapeXml k ++ ("\">").toList,
      ("</field>").toList, ?_⟩
    rw [xfdfFieldElem]
    have e1 : (("\"><value>").toList : List Char) =
        ("\">").toList ++ ("<value>").toList := rfl
    have e2 : (("</value></field>").toList : List Char) =
        ("</value>").toList ++ ("</field>").toList := rfl
    rw [e1, e2]
    simp [List.append_assoc]
  have h2 : xfdfFieldElem k v <:+:
      (form.map (fun p => xfdfFieldElem p.1 p.2)).flatten :=
    List.infix_of_mem_flatten (List.mem_map.mpr ⟨(k, v), hmem, rfl⟩)
  have h3 : (form.map (fun p => xfdfFieldElem p.1 p.2)).flatten <:+:
      createXFDFData form := by
    refine ⟨("<?xml version=\"1.0\" encoding=\"UTF-8\"?>").toList ++ '\n' ::
      ("<xfdf xmldn=\"http://ns.adobe.com/xfdf/\" xml:space=\"preserve\"><fields>").toList,
      ("</fields></xfdf>").toList ++ ['\n'], ?_⟩
    rw [createXFDFData]
    simp [List.append_assoc]
  exact (h1.trans h2).trans h3

/-- `unescapeXml` on the empty list. -/
theorem unescapeXml_nil : unescapeXml [] = [] := by
  rw [unescapeXml.eq_def]

/-- Resolving the references `escapeXmlChar` writes for one character, in
front of any continuation, recovers the character. -/
theorem unescapeXml_escapeXmlChar (c : Char) (X : List Char) :
    unescapeXml (escapeXmlChar c ++ X) = c :: unescapeXml X := by
  by_cases h1 : c = '"'
  · subst h1
    rw [show escapeXmlChar ('"') ++ X = '&' :: '#' :: '3' :: '4' :: ';' :: X from rfl,
      unescapeXml.eq_def]
    rfl
  by_cases h2 : c = '\''
  · subst h2
    rw [show escapeXmlChar ('\'') ++ X = '&' :: '#' :: '3' :: '9' :: ';' :: X from rfl,
      unescapeXml.eq_def]
    rfl
  by_cases h3 : c = '&'
  · subst h3
    rw [show escapeXmlChar ('&') ++ X = '&' :: 'a' :: 'm' :: 'p' :: ';' :: X from rfl,
      unescapeXml.eq_def]
    rfl
  by_cases h4 : c = '<'
  · subst h4
    rw [show escapeXmlChar ('<') ++ X = '&' :: 'l' :: 't' :: ';' :: X from rfl,
      unescapeXml.eq_def]
    rfl
  by_cases h5 : c = '>'
  · subst h5
    rw [show escapeXmlChar ('>') ++ X = '&' :: 'g' :: 't' :: ';' :: X from rfl,
      unescapeXml.eq_def]
    rfl
  by_cases h6 : c = '\t'
  · subst h6
    rw [show escapeXmlChar ('\t') ++ X = '&' :: '#' :: 'x' :: '9' :: ';' :: X from rfl,
      unescapeXml.eq_def]
    rfl
  by_cases h7 : c = '\n'
  · subst h7
    rw [show escapeXmlChar ('\n') ++ X = '&' :: '#' :: 'x' :: 'A' :: ';' :: X from rfl,
      unescapeXml.eq_def]
    rfl
  by_cases h8 : c = '\r'
  · subst h8
    rw [show escapeXmlChar ('\r') ++ X = '&' :: '#' :: 'x' :: 'D' :: ';' :: X from rfl,
      unescapeXml.eq_def]
    rfl
  have hc : escapeXmlChar c = [c] := by
    rw [escapeXmlChar, if_neg h1, if_neg h2, if_neg h3, if_neg h4, if_neg h5,
      if_neg h6, if_neg h7, if_neg h8]
  rw [hc, unescapeXml.eq_def]
  show (if c = '&' then _ else c :: unescapeXml X) = c :: unescapeXml X
  rw [if_neg h3]

/-- Go's XML escaping round-trips through entity resolution: parsing the
escaped text yields the original string. -/
theorem unescapeXml_escapeXml (s : List Char) : unescapeXml (escapeXml s) = s := by
  induction s with
  | nil => exact unescapeXml_nil
  | cons c r ih =>
    have h : escapeXml (c :: r) = escapeXmlChar c ++ escapeXml r := by
      simp [escapeXml]
    rw [h, unescapeXml_escapeXmlChar, ih]

/-- C5.  A form with a value containing a character outside ISO 8859-1
fails the FDF encode with the encoding error (never truncating or
substituting), while the XFDF encoder succeeds on the same form: its
payload carries the value's `<value>` element, escaped as `encoding/xml`
escapes it, and XML entity resolution returns the value unchanged. -/
theorem fdf_fails_xfdf_succeeds_outside_latin1
    (form : List (List Char × List Char)) (k v : List Char) (c : Char)
    (hmem : (k, v) ∈ form) (hc : c ∈ v) (hlat : 256 ≤ c.toNat) :
    createFdfData form = .error "failed to convert string to Latin-1" ∧
    (("<value>").toList ++ escapeXml v ++ ("</value>").toList) <:+:
      createXFDFData form ∧
    unescapeXml (escapeXml v) = v := by
  refine ⟨?_, value_elem_infix_xfdf form k v hmem, unescapeXml_escapeXml v⟩
  rw [createFdfData, fdfBody_error form k v c hmem hc hlat]

/-- Witness for C5 at the form `{"k": "日"}` (U+65E5, code point 26085). -/
theorem fdf_fails_xfdf_succeeds_outside_latin1_witness :
    ((['k'], ['日']) ∈ ([((['k'], ['日']))] : List (List Char × List Char))) ∧
    ('日' ∈ ['日']) ∧ 256 ≤ ('日').toNat ∧
    (createFdfData [((['k'], ['日']))] = .error "failed to convert string to Latin-1" ∧
      (("<value>").toList ++ escapeXml ['日'] ++ ("</value>").toList) <:+:
        createXFDFData [((['k'], ['日']))] ∧
      unescapeXml (escapeXml ['日']) = ['日']) :=
  ⟨by decide, by decide, by decide,
    fdf_fails_xfdf_succeeds_outside_latin1 [((['k'], ['日']))] ['k'] ['日'] ('日')
      (by decide) (by decide) (by decide)⟩

/-- Splitting on a newline that follows a newline-free line peels off that
line. -/
theorem splitOn_newline_append (l t : List Char) (h : '\n' ∉ l) :
    (l ++ '\n' :: t).splitOn '\n' = l :: t.splitOn '\n' := by
  have hforall : ∀ x ∈ l, ¬((x == '\n') = true) := by
    intro x hx hb
    exact h (beq_iff_eq.mp hb ▸ hx)
  simpa [List.splitOn] using
    List.splitOnP_first (fun a => a == '\n') l hforall '\n' (by simp) t

/-- A newline-free line that parses to no pair contributes nothing to the
extraction. -/
theorem extractFdfPairs_skip (l t : List Char) (hnl : '\n' ∉ l)
    (hp : parseFdfLine l = none) :
    extractFdfPairs (l ++ '\n' :: t) = extractFdfPairs t := by
  unfold extractFdfPairs
  rw [splitOn_newline_append l t hnl, List.filterMap_cons, hp]

/-- A newline-free line that parses to a pair contributes exactly that
pair to the extraction. -/
theorem extractFdfPairs_take (l t : List Char) (p : List Char × List Char)
    (hnl : '\n' ∉ l) (hp : parseFdfLine l = some p) :
    extractFdfPairs (l ++ '\n' :: t) = p :: extractFdfPairs t := by
  unfold extractFdfPairs
  rw [splitOn_newline_append l t hnl, List.filterMap_cons, hp]

/-- The first occurrence of the `) /V (` separator in
`n ++ ") /V (" ++ v` is the explicit one when `n` contains no `)`. -/
theorem splitFirstOn_exact (n v : List Char) (hn : ')' ∉ n) :
    splitFirstOn ((") /V (").toList) (n ++ ((") /V (").toList ++ v)) =
      some (n, v) := by
  induction n with
  | nil =>
    rw [List.nil_append,
      show ((") /V (").toList ++ v : List Char) =
        ')' :: ((" /V (").toList ++ v) from rfl]
    simp only [splitFirstOn]
    rw [if_pos (show ((") /V (").toList : List Char) <+:
      ')' :: ((" /V (").toList ++ v) from List.prefix_append _ v)]
    rfl
  | cons c n ih =>
    have hc : c ≠ ')' := fun hcc => hn (hcc ▸ List.mem_cons_self c n)
    rw [List.cons_append]
    simp only [splitFirstOn]
    rw [if_neg (by
      intro hpre
      rcases List.cons_prefix_cons.mp hpre with ⟨hch, _⟩
      exact hc hch.symm)]
    rw [ih (fun hm => hn (List.mem_cons_of_mem c hm))]
    rfl

/-- The spec-side line parser inverts the line format of `createFdfFile`
for names free of `)`. -/
theorem parseFdfLine_fdfLine (n v : List Char) (hn : ')' ∉ n) :
    parseFdfLine (fdfLine n v) = some (n, v) := by
  have hline : fdfLine n v =
      ("<< /T (").toList ++ (n ++ ((") /V (").toList ++ (v ++ (")>>").toList))) := by
    simp [fdfLine]
  have hpre : ("<< /T (").toList <+: fdfLine n v := by
    rw [hline]; exact List.prefix_append _ _
  have hsuf : (")>>").toList <:+ fdfLine n v := by
    have : fdfLine n v =
        (("<< /T (").toList ++ n ++ ((") /V (").toList) ++ v) ++ (")>>").toList := by
      simp [fdfLine]
    rw [this]
    exact List.suffix_append _ _
  rw [parseFdfLine, if_pos ⟨hpre, hsuf⟩]
  have hdrop : (fdfLine n v).drop 7 = n ++ ((") /V (").toList ++ (v ++ (")>>").toList)) := by
    rw [hline,
      show (7 : Nat) = (("<< /T (").toList : List Char).length from rfl,
      List.drop_left]
  rw [hdrop]
  have hlen : (n ++ ((") /V (").toList ++ (v ++ (")>>").toList))).length - 3 =
      (n ++ ((") /V (").toList ++ v)).length := by
    simp [List.length_append]
    omega
  rw [hlen,
    show n ++ ((") /V (").toList ++ (v ++ (")>>").toList)) =
      (n ++ ((") /V (").toList ++ v)) ++ (")>>").toList by simp,
    List.take_left]
  exact splitFirstOn_exact n v hn

/-- No character of a `fdfLine` over newline-free name and value is a
newline. -/
theorem newline_not_mem_fdfLine (n v : List Char) (hn : '\n' ∉ n)
    (hv : '\n' ∉ v) : '\n' ∉ fdfLine n v := by
  intro hm
  rw [fdfLine] at hm
  simp only [List.mem_append] at hm
  rcases hm with ((((h | h) | h) | h) | h)
  · revert h; decide
  · exact hn h
  · revert h; decide
  · exact hv h
  · revert h; decide

/-- Extraction passes over the FDF header block. -/
theorem extractFdfPairs_header (X : List Char) :
    extractFdfPairs (fdfHeader ++ '\n' :: X) = extractFdfPairs X := by
  rw [show fdfHeader ++ '\n' :: X =
      ("%FDF-1.2").toList ++ '\n' :: (("%,,oe\"").toList ++ '\n' ::
        (("1 0 obj").toList ++ '\n' :: (("<<").toList ++ '\n' ::
          (("/FDF << /Fields [").toList ++ '\n' :: X)))) from rfl]
  rw [extractFdfPairs_skip _ _ (by decide) (by decide),
    extractFdfPairs_skip _ _ (by decide) (by decide),
    extractFdfPairs_skip _ _ (by decide) (by decide),
    extractFdfPairs_skip _ _ (by decide) (by decide),
    extractFdfPairs_skip _ _ (by decide) (by decide)]

/-- The field-entry loop succeeds on ASCII values and its output block,
followed by the footer, extracts back to exactly the entry list, for names
free of newlines and closing parentheses and values free of newlines. -/
theorem fdfBody_ok_extract (form : List (List Char × List Char))
    (h : ∀ p ∈ form, (∀ c ∈ p.1, c.toNat < 128) ∧ (∀ c ∈ p.2, c.toNat < 128) ∧
      '\n' ∉ p.1 ∧ '\n' ∉ p.2 ∧ ')' ∉ p.1) :
    ∃ b, fdfBody form = .ok b ∧
      extractFdfPairs (b ++ fdfFooter ++ ['\n']) = form := by
  induction form with
  | nil => exact ⟨[], rfl, by decide⟩
  | cons e rest ih =>
    obtain ⟨k, v⟩ := e
    obtain ⟨hk, hv, hnk, hnv, hpk⟩ := h (k, v) (List.mem_cons_self (k, v) rest)
    obtain ⟨b, hb, hex⟩ := ih (fun p hp => h p (List.mem_cons_of_mem (k, v) hp))
    have henc : encodeLatin1 v = .ok v :=
      encodeLatin1_ok v (fun c hc => Nat.lt_of_lt_of_le (hv c hc) (by omega))
    refine ⟨fdfLine k v ++ '\n' :: b, ?_, ?_⟩
    · rw [fdfBody, henc, hb]
      rfl
    · rw [show (fdfLine k v ++ '\n' :: b) ++ fdfFooter ++ ['\n'] =
          fdfLine k v ++ '\n' :: (b ++ fdfFooter ++ ['\n']) by simp]
      rw [extractFdfPairs_take _ _ (k, v) (newline_not_mem_fdfLine k v hnk hnv)
        (parseFdfLine_fdfLine k v hpk), hex]

/-- C4, amended.  For every form of ASCII-only names and values that are
newline-free and whose names contain no `)`, encoding to FDF succeeds and
extracting the `/T (...) /V (...)` pairs from the payload between the
fixed header and footer yields exactly the original entries, in order,
with no additions, losses or changes.  (The restrictions are forced: the
format writes names and values verbatim with no escaping, so a newline or
an unbalanced `)` inside them corrupts the line structure, see the
counterexample.) -/
theorem fdf_roundtrip_ascii (form : List (List Char × List Char))
    (h : ∀ p ∈ form, (∀ c ∈ p.1, c.toNat < 128) ∧ (∀ c ∈ p.2, c.toNat < 128) ∧
      '\n' ∉ p.1 ∧ '\n' ∉ p.2 ∧ ')' ∉ p.1) :
    ∃ payload, createFdfData form = .ok payload ∧
      extractFdfPairs payload = form := by
  obtain ⟨b, hb, hex⟩ := fdfBody_ok_extract form h
  refine ⟨fdfHeader ++ '\n' :: (b ++ fdfFooter ++ ['\n']), ?_, ?_⟩
  · rw [createFdfData, hb]
  · rw [extractFdfPairs_header, hex]

/-- C4.  The claim as stated fails: the form `{"k": "a\nb"}` is ASCII-only
yet the FDF payload splits the value across two lines (nothing is
escaped), so extracting the `/T (...) /V (...)` pairs yields no pair at
all instead of the original mapping. -/
theorem fdf_roundtrip_ascii_cex :
    (createFdfData [(['k'], ['a', '\n', 'b'])]).map extractFdfPairs =
      .ok [] ∧
    ([] : List (List Char × List Char)) ≠ [(['k'], ['a', '\n', 'b'])] := by
  constructor
  · rfl
  · decide

/-- Witness for C4 at the spec's sample form
`{"field_1": "Hello", "field_2": "World"}`. -/
theorem fdf_roundtrip_ascii_witness :
    (∀ p ∈ [((("field_1").toList, ("Hello").toList)),
        ((("field_2").toList, ("World").toList))],
      (∀ c ∈ p.1, c.toNat < 128) ∧ (∀ c ∈ p.2, c.toNat < 128) ∧
      '\n' ∉ p.1 ∧ '\n' ∉ p.2 ∧ ')' ∉ p.1) ∧
    (∃ payload,
      createFdfData [((("field_1").toList, ("Hello").toList)),
        ((("field_2").toList, ("World").toList))] = .ok payload ∧
      extractFdfPairs payload =
        [((("field_1").toList, ("Hello").toList)),
          ((("field_2").toList, ("World").toList))]) :=
  ⟨by decide,
    fdf_roundtrip_ascii [((("field_1").toList, ("Hello").toList)),
      ((("field_2").toList, ("World").toList))] (by decide)⟩

end FillPdf
